import Mathlib

/-!
Shallow embedding of the grid-editor state store (`src/state/gridStore.ts`).

Modelling conventions:
* JS `string | null` cell values become `Option String` (`none` = empty cell).
* JS numbers become `ℚ` (the reachable numeric values are finite; `NaN` and
  infinities, which JSON cannot round-trip anyway, are outside the model).
* JS arrays become `List`s; `grid[r]?.[c]` (which may be `undefined` out of
  structure) becomes an `Option CellValue` lookup, keeping the
  `undefined` / `null` distinction of the source.
* Deep copies (`cloneGrid`, `clonePaintStrokes`) are rendered as the
  structure-rebuilding maps they perform; on immutable Lean values these are
  provably the identity.
* JSON documents are an inductive `Json` tree; `JSON.parse` of a payload is
  modelled as `Option Json` (`none` = the parse threw).
-/

namespace GridEditor

/-- A cell is a color string or empty (`null` in the source). -/
abbrev CellValue := Option String

/-- Row-major dense grid, as in the source (`CellValue[][]`). -/
abbrev Grid := List (List CellValue)

/-- Fractional grid-space point of a paint stroke. -/
structure PaintPoint where
  x : ℚ
  y : ℚ
deriving DecidableEq, Repr

/-- One freehand stroke: color, width and its ordered point list. -/
structure PaintStroke where
  color : String
  width : ℚ
  points : List PaintPoint
deriving DecidableEq, Repr

/-- History snapshot: grid plus paint strokes (`StateSnapshot` in the source). -/
structure StateSnapshot where
  grid : Grid
  paintStrokes : List PaintStroke
deriving DecidableEq, Repr

/-- The `GridMode` union type. -/
inductive GridMode
  | draw
  | erase
  | fill
  | fillForward
  | paint
  | pan
deriving DecidableEq, Repr

/-- The store state (`GridStore` minus the function fields). -/
structure GridStore where
  rows : ℕ
  cols : ℕ
  grid : Grid
  zoom : ℚ
  selectedColor : String
  panX : ℚ
  panY : ℚ
  mode : GridMode
  paintStrokes : List PaintStroke
  history : List StateSnapshot
  future : List StateSnapshot
  activeStrokeIndex : Option ℕ
deriving DecidableEq, Repr

def DEFAULT_ROWS : ℕ := 32
def DEFAULT_COLS : ℕ := 32
def MAX_HISTORY : ℕ := 100
def MIN_ZOOM : ℚ := 1 / 2
def MAX_ZOOM : ℚ := 4
def MIN_GRID_SIZE : ℕ := 8
def MAX_GRID_SIZE : ℕ := 128
def DEFAULT_COLOR : String := "#0ea5e9"
def DEFAULT_STROKE_WIDTH : ℚ := 2

/-- Source `createEmptyGrid`. -/
def createEmptyGrid (rows cols : ℕ) : Grid :=
  List.replicate rows (List.replicate cols (none : CellValue))

/-- Source `cloneGrid`, i.e. `grid.map(row => [...row])`; a `[...row]` spread is the
identity on the immutable list value. -/
def cloneGrid (grid : Grid) : Grid :=
  grid.map (fun row => row)

/-- Source `clonePaintStrokes`: rebuilds every stroke and point record. -/
def clonePaintStrokes (strokes : List PaintStroke) : List PaintStroke :=
  strokes.map (fun stroke =>
    { color := stroke.color
      width := stroke.width
      points := stroke.points.map (fun point => { x := point.x, y := point.y }) })

@[simp] theorem cloneGrid_eq (g : Grid) : cloneGrid g = g := by
  simp [cloneGrid]

@[simp] theorem clonePaintStrokes_eq (s : List PaintStroke) :
    clonePaintStrokes s = s := by
  simp [clonePaintStrokes]

/-- Source `clamp(value, min, max) = Math.min(Math.max(value, min), max)`. -/
def clamp (value mn mx : ℚ) : ℚ :=
  min (max value mn) mx

/-- Source `clampGridSize = clamp(Math.round(value), 8, 128)`; the result is an
integer in `[8, 128]`, kept as a `ℕ`. -/
def clampGridSize (value : ℚ) : ℕ :=
  (min (max (round value) (MIN_GRID_SIZE : ℤ)) (MAX_GRID_SIZE : ℤ)).toNat

/-- The read `grid[r]?.[c]`: `none` plays the role of `undefined`. -/
def gridGet (g : Grid) (r c : ℕ) : Option CellValue :=
  match g[r]? with
  | none => none
  | some row => row[c]?

/-- The write `grid[r][c] = v`, a no-op when row `r` is out of structure. -/
def gridSet (g : Grid) (r c : ℕ) (v : CellValue) : Grid :=
  match g[r]? with
  | none => g
  | some row => g.set r (row.set c v)

/-- Cells of `g` currently equal to `t` (termination measure for the fill). -/
def countTarget (g : Grid) (t : CellValue) : ℕ :=
  (g.map (fun row => row.countP (fun cell => decide (cell = t)))).sum

theorem countP_set {α : Type} {l : List α} {i : ℕ} {a : α} (b : α)
    (h : l[i]? = some a) (p : α → Bool) :
    (l.set i b).countP p + (if p a then 1 else 0)
      = l.countP p + (if p b then 1 else 0) := by
  induction l generalizing i with
  | nil => simp at h
  | cons hd tl ih =>
    cases i with
    | zero =>
      simp at h
      subst h
      simp [List.countP_cons]
      omega
    | succ j =>
      simp at h
      have := ih h
      simp [List.countP_cons, List.set]
      omega

theorem countTarget_gridSet_lt {g : Grid} {r c : ℕ} {t : CellValue} (v : CellValue)
    (h : gridGet g r c = some t) (hv : v ≠ t) :
    countTarget (gridSet g r c v) t < countTarget g t := by
  induction g generalizing r with
  | nil => simp [gridGet] at h
  | cons row tl ih =>
    cases r with
    | zero =>
      simp [gridGet] at h
      have hcount := countP_set v h (fun cell => decide (cell = t))
      simp [hv] at hcount
      simp [gridSet, gridGet, countTarget, List.set]
      omega
    | succ r' =>
      simp only [gridGet, List.getElem?_cons_succ] at h
      have hih := ih (r := r') h
      simp only [gridSet, gridGet, List.getElem?_cons_succ] at hih ⊢
      cases hrow : tl[r']? with
      | none =>
        rw [hrow] at h
        simp at h
      | some row' =>
        rw [hrow] at hih
        simp only [List.set_cons_succ, countTarget, List.map_cons,
          List.sum_cons] at hih ⊢
        omega

/-- Neighbor candidate of the flood fill: in-bounds and still target-valued
in the (partially filled) clone; the source's local `nextRow`/`nextCol` are
written inline. -/
def neighborPush (rows cols : ℕ) (target : CellValue) (filled : Grid)
    (r c : ℕ) (d : ℤ × ℤ) : Option (ℕ × ℕ) :=
  if (r : ℤ) + d.1 < 0 ∨ (c : ℤ) + d.2 < 0 ∨ (rows : ℤ) ≤ (r : ℤ) + d.1 ∨
      (cols : ℤ) ≤ (c : ℤ) + d.2 then
    none
  else if gridGet filled ((r : ℤ) + d.1).toNat ((c : ℤ) + d.2).toNat = some target then
    some (((r : ℤ) + d.1).toNat, ((c : ℤ) + d.2).toNat)
  else
    none

/-- The `while (stack.length)` loop of `floodFillWithDirections`.  The JS
array is used LIFO (`pop`/`push` at the end); here the list head is the top
of the stack, so the neighbors pushed in direction order are consed in
reverse.  The `hne` argument records the `target === replacement` early
return taken by the caller; it makes every actual fill shrink
`countTarget`. -/
def floodLoop (rows cols : ℕ) (target newValue : CellValue)
    (hne : target ≠ newValue) (dirs : List (ℤ × ℤ))
    (stack : List (ℕ × ℕ)) (filled : Grid) : Grid :=
  match stack with
  | [] => filled
  | (r, c) :: rest =>
    if h : gridGet filled r c = some target then
      let filled' := gridSet filled r c newValue
      let pushes := dirs.filterMap (neighborPush rows cols target filled' r c)
      floodLoop rows cols target newValue hne dirs (pushes.reverse ++ rest) filled'
    else
      floodLoop rows cols target newValue hne dirs rest filled
termination_by (countTarget filled target, stack.length)
decreasing_by
  · apply Prod.Lex.left
    exact countTarget_gridSet_lt newValue h (fun hvt => hne hvt.symm)
  · apply Prod.Lex.right
    simp

/-- Source `floodFillWithDirections`. -/
def floodFillWithDirections (grid : Grid) (row col : ℕ) (newValue : CellValue)
    (dirs : List (ℤ × ℤ)) : Grid :=
  match gridGet grid row col with
  | none => grid
  | some targetValue =>
    if h : targetValue = newValue then
      grid
    else
      floodLoop grid.length ((grid.head?.map List.length).getD 0)
        targetValue newValue h dirs [(row, col)] (cloneGrid grid)

/-- 4-directional `floodFill`. -/
def floodFill (grid : Grid) (row col : ℕ) (newValue : CellValue) : Grid :=
  floodFillWithDirections grid row col newValue [(-1, 0), (1, 0), (0, -1), (0, 1)]

/-- Directional `forwardFill` (down / right only). -/
def forwardFill (grid : Grid) (row col : ℕ) (newValue : CellValue) : Grid :=
  floodFillWithDirections grid row col newValue [(1, 0), (0, 1)]

/-- JSON documents, the values `JSON.parse` can produce. -/
inductive Json
  | null
  | bool (b : Bool)
  | num (q : ℚ)
  | str (s : String)
  | arr (elements : List Json)
  | obj (fields : List (String × Json))

/-- First binding of `key` in an object's field list. -/
def findField (fields : List (String × Json)) (key : String) : Option Json :=
  match fields with
  | [] => none
  | (k, v) :: rest => if k = key then some v else findField rest key

/-- JS property read `j.key`: a field of an object, `undefined` (here `none`)
on any other non-null value.  Reading a property of `null` throws in JS; the
call sites that can receive `null` handle that case before using this. -/
def getField (j : Json) (key : String) : Option Json :=
  match j with
  | Json.obj fields => findField fields key
  | _ => none

/-- Source `normalizeCellValue`; the argument is `none` for JS `undefined`.
`Number.isFinite` holds for every `ℚ`. -/
def normalizeCellValue (value : Option Json) : CellValue :=
  match value with
  | some (Json.str s) => some s
  | none => none
  | some Json.null => none
  | some (Json.num q) => if 0 < q then some DEFAULT_COLOR else none
  | some _ => none

/-- Source `normalizeGrid`: the source allocates an empty grid and then
assigns every position `(r, c)` with `r < rows`, `c < cols` from the raw row
(rendered here as building the grid directly, which assigns the same value to
every position); a non-array input keeps the empty grid. -/
def normalizeGrid (rawGrid : Json) (rows cols : ℕ) : Grid :=
  match rawGrid with
  | Json.arr rowsRaw =>
    (List.range rows).map (fun r =>
      let sourceRow : List Json :=
        match rowsRaw[r]? with
        | some (Json.arr cells) => cells
        | _ => []
      (List.range cols).map (fun c => normalizeCellValue sourceRow[c]?))
  | _ => createEmptyGrid rows cols

/-- Source `normalizePaintPoint`: `!point` rejects `null`, `typeof` rejects
the remaining primitives (arrays pass it but have no `x`/`y` fields). -/
def normalizePaintPoint (point : Json) : Option PaintPoint :=
  match point with
  | Json.null => none
  | Json.bool _ => none
  | Json.num _ => none
  | Json.str _ => none
  | _ =>
    match getField point "x", getField point "y" with
    | some (Json.num x), some (Json.num y) => some { x := x, y := y }
    | _, _ => none

/-- One iteration of the `for (const entry of raw)` loop of
`normalizePaintStrokes`; `none` is the `continue` cases. -/
def normalizeStrokeEntry (entry : Json) : Option PaintStroke :=
  match entry with
  | Json.null => none
  | Json.bool _ => none
  | Json.num _ => none
  | Json.str _ => none
  | _ =>
    match getField entry "points" with
    | some (Json.arr pointsRaw) =>
      let points := pointsRaw.filterMap normalizePaintPoint
      if points.isEmpty then none
      else
        some
          { color :=
              match getField entry "color" with
              | some (Json.str c) => c
              | _ => DEFAULT_COLOR
            width :=
              match getField entry "width" with
              | some (Json.num w) => if 0 < w then w else DEFAULT_STROKE_WIDTH
              | _ => DEFAULT_STROKE_WIDTH
            points := points }
    | _ => none

/-- Source `normalizePaintStrokes`; the argument is `none` for JS `undefined`. -/
def normalizePaintStrokes (raw : Option Json) : List PaintStroke :=
  match raw with
  | some (Json.arr entries) => entries.filterMap normalizeStrokeEntry
  | _ => []

/-- A cell as it appears in the serialized JSON. -/
def cellToJson : CellValue → Json
  | none => Json.null
  | some s => Json.str s

def gridToJson (g : Grid) : Json :=
  Json.arr (g.map (fun row => Json.arr (row.map cellToJson)))

def pointToJson (p : PaintPoint) : Json :=
  Json.obj [("x", Json.num p.x), ("y", Json.num p.y)]

def strokeToJson (s : PaintStroke) : Json :=
  Json.obj
    [("color", Json.str s.color), ("width", Json.num s.width),
      ("points", Json.arr (s.points.map pointToJson))]

def strokesToJson (strokes : List PaintStroke) : Json :=
  Json.arr (strokes.map strokeToJson)

/-- Escape for a JSON string literal (quote and backslash; byte-identity of
outputs only needs the rendering to be a fixed function of the document). -/
def escapeJsonChar (c : Char) : String :=
  if c = '"' then "\\\"" else if c = '\\' then "\\\\" else String.singleton c

def escapeJsonString (s : String) : String :=
  s.foldl (fun acc c => acc ++ escapeJsonChar c) ""

/-- Deterministic rendering of a JSON number (stands in for the JS number
formatter; equal numbers render equally, which is all byte-identity needs). -/
def numToString (q : ℚ) : String :=
  if q.den = 1 then toString q.num else toString q.num ++ "/" ++ toString q.den

mutual

/-- Rendering of `JSON.stringify` on a document tree. -/
def stringify : Json → String
  | Json.null => "null"
  | Json.bool b => if b then "true" else "false"
  | Json.num q => numToString q
  | Json.str s => "\"" ++ escapeJsonString s ++ "\""
  | Json.arr elements => "[" ++ stringifyArray elements ++ "]"
  | Json.obj fields => "\x7b" ++ stringifyFields fields ++ "\x7d"

def stringifyArray : List Json → String
  | [] => ""
  | [j] => stringify j
  | j :: rest => stringify j ++ "," ++ stringifyArray rest

def stringifyFields : List (String × Json) → String
  | [] => ""
  | [(k, v)] => "\"" ++ escapeJsonString k ++ "\":" ++ stringify v
  | (k, v) :: rest =>
    "\"" ++ escapeJsonString k ++ "\":" ++ stringify v ++ "," ++ stringifyFields rest

end

/-- The serializable projection (`PersistedGridState`); `rows`/`cols` stay raw
numbers because `readSnapshot` returns them unclamped. -/
structure PersistedGridState where
  rows : ℚ
  cols : ℚ
  grid : Grid
  zoom : ℚ
  selectedColor : String
  panX : ℚ
  panY : ℚ
  paintStrokes : List PaintStroke

/-- The state of the store when the module is created. -/
def initialState : GridStore :=
  { rows := DEFAULT_ROWS
    cols := DEFAULT_COLS
    grid := createEmptyGrid DEFAULT_ROWS DEFAULT_COLS
    zoom := 1
    selectedColor := DEFAULT_COLOR
    panX := 0
    panY := 0
    mode := GridMode.draw
    paintStrokes := []
    history := []
    future := []
    activeStrokeIndex := none }

/-- The deep snapshot taken by `pushHistory`, `undo` and `redo`. -/
def currentSnapshot (s : GridStore) : StateSnapshot :=
  { grid := cloneGrid s.grid, paintStrokes := clonePaintStrokes s.paintStrokes }

/-- Source `pushHistory`: append the snapshot (the source's local `history` array),
then `shift()` (drop the front) when the length exceeds `MAX_HISTORY`. -/
def pushHistory (s : GridStore) : List StateSnapshot :=
  if MAX_HISTORY < (s.history ++ [currentSnapshot s]).length then
    (s.history ++ [currentSnapshot s]).drop 1
  else
    s.history ++ [currentSnapshot s]

/-- Source `setMode`: `set({ mode })`, nothing else changes. -/
def setMode (s : GridStore) (m : GridMode) : GridStore :=
  { s with mode := m }

def setZoom (s : GridStore) (z : ℚ) : GridStore :=
  { s with zoom := clamp z MIN_ZOOM MAX_ZOOM }

def bumpZoom (s : GridStore) (delta : ℚ) : GridStore :=
  setZoom s (s.zoom + delta)

/-- Source `applyCellAction`.  Negative indices, a no-op in the source via the
`row < 0 || col < 0` guard, are outside the `ℕ` index model; on the dense
grids of reachable states the `Option`-layered cell reads below coincide
with the source's direct reads.  The source's local `nextGrid` (the value
matched at the end) is written inline. -/
def applyCellAction (s : GridStore) (row col : ℕ) : GridStore :=
  if s.rows ≤ row ∨ s.cols ≤ col then s
  else
    match
      match s.mode with
      | GridMode.draw =>
        if gridGet s.grid row col ≠ some (some s.selectedColor) then
          some (gridSet (cloneGrid s.grid) row col (some s.selectedColor))
        else none
      | GridMode.erase =>
        if gridGet s.grid row col ≠ some none then
          some (gridSet (cloneGrid s.grid) row col none)
        else none
      | GridMode.fill =>
        if gridGet s.grid row col ≠ some (some s.selectedColor) then
          some (floodFill s.grid row col (some s.selectedColor))
        else none
      | GridMode.fillForward =>
        if gridGet s.grid row col ≠ some (some s.selectedColor) then
          some (forwardFill s.grid row col (some s.selectedColor))
        else none
      | _ => none
    with
    | none => s
    | some g =>
      { s with
        grid := g
        history := pushHistory s
        future := []
        activeStrokeIndex := none }

def startPaintStroke (s : GridStore) (point : PaintPoint) : GridStore :=
  match s.activeStrokeIndex with
  | some _ => s
  | none =>
    let history := pushHistory s
    let newStroke : PaintStroke :=
      { color := s.selectedColor, width := DEFAULT_STROKE_WIDTH, points := [point] }
    let paintStrokes := s.paintStrokes ++ [newStroke]
    { s with
      paintStrokes := paintStrokes
      history := history
      future := []
      activeStrokeIndex := some (paintStrokes.length - 1) }

/-- Source `updatePaintStroke`.  The source reads `lastPoint` (the last element,
`undefined` for an empty point list) and returns unchanged when it exists and
equals the incoming point; otherwise it rebuilds the active stroke with the
point appended.  The map-with-index that swaps position `index` for the
updated stroke is `List.set index` (both replace exactly that position and
are the identity when `index` is out of range); the source's local
`updatedStroke` record is written inline. -/
def updatePaintStroke (s : GridStore) (point : PaintPoint) : GridStore :=
  match s.activeStrokeIndex with
  | none => s
  | some index =>
    match s.paintStrokes[index]? with
    | none => { s with activeStrokeIndex := none }
    | some target =>
      match target.points.getLast? with
      | some lastPoint =>
        if lastPoint.x = point.x ∧ lastPoint.y = point.y then s
        else
          { s with
            paintStrokes := s.paintStrokes.set index
              (PaintStroke.mk target.color target.width (target.points ++ [point])) }
      | none =>
        { s with
          paintStrokes := s.paintStrokes.set index
            (PaintStroke.mk target.color target.width (target.points ++ [point])) }

def endPaintStroke (s : GridStore) : GridStore :=
  match s.activeStrokeIndex with
  | none => s
  | some _ => { s with activeStrokeIndex := none }

/-- Source `undo`: `history.pop()` takes the last snapshot; the pre-undo state is
consed onto the front of `future`. -/
def undo (s : GridStore) : GridStore :=
  match s.history.getLast? with
  | none => s
  | some previous =>
    { s with
      grid := cloneGrid previous.grid
      paintStrokes := clonePaintStrokes previous.paintStrokes
      history := s.history.dropLast
      future := currentSnapshot s :: s.future
      activeStrokeIndex := none }

/-- Source `redo`: takes the front of `future`; the pre-redo state is appended to
`history` (with no `MAX_HISTORY` truncation on this path). -/
def redo (s : GridStore) : GridStore :=
  match s.future with
  | [] => s
  | next :: rest =>
    { s with
      grid := cloneGrid next.grid
      paintStrokes := clonePaintStrokes next.paintStrokes
      history := s.history ++ [currentSnapshot s]
      future := rest
      activeStrokeIndex := none }

def clear (s : GridStore) : GridStore :=
  { s with
    grid := createEmptyGrid s.rows s.cols
    paintStrokes := []
    history := []
    future := []
    activeStrokeIndex := none }

/-- Source `setSelectedColor`; `!color` is true exactly for the empty string. -/
def setSelectedColor (s : GridStore) (color : String) : GridStore :=
  if color = "" then s else { s with selectedColor := color }

/-- The resize copy: a fresh empty `nextRows × nextCols` grid whose overlap
with the old grid is copied cell by cell (rendered as a direct build; on the
dense grids of reachable states `(gridGet old r c).getD none` is the source's
`state.grid[r][c]`). -/
def resizedGrid (old : Grid) (oldRows oldCols nextRows nextCols : ℕ) : Grid :=
  (List.range nextRows).map (fun r =>
    (List.range nextCols).map (fun c =>
      if r < min nextRows oldRows ∧ c < min nextCols oldCols then
        (gridGet old r c).getD none
      else none))

def setGridSize (s : GridStore) (rowsReq colsReq : ℚ) : GridStore :=
  if clampGridSize rowsReq = s.rows ∧ clampGridSize colsReq = s.cols then s
  else
    { s with
      rows := clampGridSize rowsReq
      cols := clampGridSize colsReq
      grid := resizedGrid s.grid s.rows s.cols (clampGridSize rowsReq)
        (clampGridSize colsReq)
      paintStrokes := []
      history := []
      future := []
      panX := 0
      panY := 0
      activeStrokeIndex := none }

/-- Source `setPan`; the `persist` flag only selects whether the storage collaborator
is written, the store state is the same either way. -/
def setPan (s : GridStore) (x y : ℚ) (_persist : Bool) : GridStore :=
  if s.panX = x ∧ s.panY = y then s else { s with panX := x, panY := y }

/-- Source `serialize()`: the structural projection of the persisted fields, as the
JSON document `JSON.stringify` receives. -/
def serialize (s : GridStore) : Json :=
  Json.obj
    [("rows", Json.num s.rows),
      ("cols", Json.num s.cols),
      ("grid", gridToJson s.grid),
      ("zoom", Json.num s.zoom),
      ("selectedColor", Json.str s.selectedColor),
      ("panX", Json.num s.panX),
      ("panY", Json.num s.panY),
      ("paintStrokes", strokesToJson s.paintStrokes)]

/-- The JSON string the source's `serialize()` returns. -/
def serializeString (s : GridStore) : String :=
  stringify (serialize s)

/-- Source `deserialize(payload)`.  The payload is `none` when `JSON.parse` throws;
reading `.rows` of a parsed `null` also throws.  Both throws land in the
`catch` that logs a warning; the returned `Bool` records whether the source
warned.  A parse that succeeds but fails the shape check is silently
ignored.  The source's local `next*` constants are written inline. -/
def deserialize (s : GridStore) (payload : Option Json) : GridStore × Bool :=
  match payload with
  | none => (s, true)
  | some parsed =>
    match parsed with
    | Json.null => (s, true)
    | _ =>
      match getField parsed "rows", getField parsed "cols",
          getField parsed "grid" with
      | some (Json.num rowsNum), some (Json.num colsNum),
          some (Json.arr gridRaw) =>
        ({ s with
            rows := clampGridSize rowsNum
            cols := clampGridSize colsNum
            grid := normalizeGrid (Json.arr gridRaw) (clampGridSize rowsNum)
              (clampGridSize colsNum)
            zoom :=
              match getField parsed "zoom" with
              | some (Json.num z) => clamp z MIN_ZOOM MAX_ZOOM
              | _ => 1
            selectedColor :=
              match getField parsed "selectedColor" with
              | some (Json.str c) => c
              | _ => DEFAULT_COLOR
            panX :=
              match getField parsed "panX" with
              | some (Json.num x) => x
              | _ => 0
            panY :=
              match getField parsed "panY" with
              | some (Json.num y) => y
              | _ => 0
            paintStrokes := normalizePaintStrokes (getField parsed "paintStrokes")
            history := []
            future := []
            activeStrokeIndex := none }, false)
      | _, _, _ => (s, false)

/-- Iteration count of `for (let r = 0; r < bound; r += 1)` for a raw numeric
bound: `⌈bound⌉` clamped to `ℕ`. -/
def rawIterations (bound : ℚ) : ℕ :=
  (Int.ceil bound).toNat

/-- Source `readSnapshot`: `none` for an absent key, a parse throw, or the property
throw on a parsed `null`; otherwise the shape check and the tolerant field
normalization (`rows`/`cols` are kept unclamped). -/
def readSnapshot (raw : Option Json) : Option PersistedGridState :=
  match raw with
  | none => none
  | some parsed =>
    match parsed with
    | Json.null => none
    | _ =>
      match getField parsed "rows", getField parsed "cols",
          getField parsed "grid" with
      | some (Json.num rowsNum), some (Json.num colsNum),
          some (Json.arr gridRaw) =>
        some
          { rows := rowsNum
            cols := colsNum
            grid := normalizeGrid (Json.arr gridRaw)
              (rawIterations rowsNum) (rawIterations colsNum)
            zoom :=
              match getField parsed "zoom" with
              | some (Json.num z) => z
              | _ => 1
            selectedColor :=
              match getField parsed "selectedColor" with
              | some (Json.str c) => c
              | _ => DEFAULT_COLOR
            panX :=
              match getField parsed "panX" with
              | some (Json.num x) => x
              | _ => 0
            panY :=
              match getField parsed "panY" with
              | some (Json.num y) => y
              | _ => 0
            paintStrokes := normalizePaintStrokes (getField parsed "paintStrokes") }
      | _, _, _ => none

/-- Source `loadFromStorage`; the stored typed values flow back through the
normalizers, which is their image under the JSON view.  `stored.zoom ?? 1`
is `stored.zoom` (the field is never nullish once read).  The source's local
`next*` constants are written inline. -/
def loadFromStorage (s : GridStore) (raw : Option Json) : GridStore :=
  match readSnapshot raw with
  | none => s
  | some stored =>
    { s with
      rows := clampGridSize stored.rows
      cols := clampGridSize stored.cols
      grid := normalizeGrid (gridToJson stored.grid) (clampGridSize stored.rows)
        (clampGridSize stored.cols)
      zoom := clamp stored.zoom MIN_ZOOM MAX_ZOOM
      selectedColor := stored.selectedColor
      panX := stored.panX
      panY := stored.panY
      paintStrokes := normalizePaintStrokes (some (strokesToJson stored.paintStrokes))
      history := []
      future := []
      activeStrokeIndex := none }

/-! ### Reachable states and the dense-grid invariant -/

/-- A dense `R × C` grid. -/
def GridWF (g : Grid) (R C : ℕ) : Prop :=
  g.length = R ∧ ∀ row ∈ g, row.length = C

/-- Strokes as the store creates or decodes them: at least one point and a
positive width. -/
def StrokesWF (strokes : List PaintStroke) : Prop :=
  ∀ st ∈ strokes, st.points ≠ [] ∧ 0 < st.width

def SnapshotWF (R C : ℕ) (snap : StateSnapshot) : Prop :=
  GridWF snap.grid R C ∧ StrokesWF snap.paintStrokes

/-- The state invariant maintained by every public operation. -/
structure Inv (s : GridStore) : Prop where
  grid_wf : GridWF s.grid s.rows s.cols
  rows_lb : MIN_GRID_SIZE ≤ s.rows
  rows_ub : s.rows ≤ MAX_GRID_SIZE
  cols_lb : MIN_GRID_SIZE ≤ s.cols
  cols_ub : s.cols ≤ MAX_GRID_SIZE
  zoom_lb : MIN_ZOOM ≤ s.zoom
  zoom_ub : s.zoom ≤ MAX_ZOOM
  strokes_wf : StrokesWF s.paintStrokes
  hist_wf : ∀ snap ∈ s.history, SnapshotWF s.rows s.cols snap
  fut_wf : ∀ snap ∈ s.future, SnapshotWF s.rows s.cols snap
  hist_bound : s.history.length + s.future.length ≤ MAX_HISTORY

/-- One public store operation (the argument of each constructor is the
external input of the call). -/
inductive Step : GridStore → GridStore → Prop
  | setMode (s : GridStore) (m : GridMode) : Step s (setMode s m)
  | setZoom (s : GridStore) (z : ℚ) : Step s (setZoom s z)
  | bumpZoom (s : GridStore) (d : ℚ) : Step s (bumpZoom s d)
  | applyCellAction (s : GridStore) (r c : ℕ) : Step s (applyCellAction s r c)
  | startPaintStroke (s : GridStore) (p : PaintPoint) : Step s (startPaintStroke s p)
  | updatePaintStroke (s : GridStore) (p : PaintPoint) : Step s (updatePaintStroke s p)
  | endPaintStroke (s : GridStore) : Step s (endPaintStroke s)
  | undo (s : GridStore) : Step s (undo s)
  | redo (s : GridStore) : Step s (redo s)
  | clear (s : GridStore) : Step s (clear s)
  | setSelectedColor (s : GridStore) (c : String) : Step s (setSelectedColor s c)
  | setGridSize (s : GridStore) (r c : ℚ) : Step s (setGridSize s r c)
  | setPan (s : GridStore) (x y : ℚ) (p : Bool) : Step s (setPan s x y p)
  | deserialize (s : GridStore) (payload : Option Json) :
      Step s (deserialize s payload).1
  | loadFromStorage (s : GridStore) (raw : Option Json) :
      Step s (loadFromStorage s raw)

/-- States reachable from the initial store state by public operations. -/
inductive Reachable : GridStore → Prop
  | init : Reachable initialState
  | step {s s' : GridStore} : Reachable s → Step s s' → Reachable s'

/-! ### Shape preservation -/

theorem gridWF_iff_map_length {g : Grid} {R C : ℕ} :
    GridWF g R C ↔ g.map List.length = List.replicate R C := by
  rw [List.eq_replicate_iff]
  constructor
  · rintro ⟨hlen, hrows⟩
    refine ⟨by simpa using hlen, ?_⟩
    intro b hb
    obtain ⟨row, hrow, rfl⟩ := List.mem_map.mp hb
    exact hrows row hrow
  · rintro ⟨hlen, hall⟩
    refine ⟨by simpa using hlen, ?_⟩
    intro row hrow
    exact hall _ (List.mem_map.mpr ⟨row, hrow, rfl⟩)

theorem gridSet_map_length (g : Grid) (r c : ℕ) (v : CellValue) :
    (gridSet g r c v).map List.length = g.map List.length := by
  induction g generalizing r with
  | nil => rfl
  | cons row tl ih =>
    cases r with
    | zero => simp [gridSet]
    | succ r' =>
      have := ih r'
      simp only [gridSet, List.getElem?_cons_succ] at this ⊢
      cases hrow : tl[r']? with
      | none => rfl
      | some row' =>
        rw [hrow] at this
        simpa [List.set_cons_succ] using this

theorem floodLoop_map_length (rows cols : ℕ) (target newValue : CellValue)
    (hne : target ≠ newValue) (dirs : List (ℤ × ℤ))
    (stack : List (ℕ × ℕ)) (filled : Grid) :
    (floodLoop rows cols target newValue hne dirs stack filled).map List.length
      = filled.map List.length := by
  induction stack, filled using floodLoop.induct rows cols target newValue hne dirs with
  | case1 filled => rw [floodLoop]
  | case2 filled r c rest h filled' pushes ih =>
    rw [floodLoop]
    simp only [dif_pos h]
    exact ih.trans (gridSet_map_length filled r c newValue)
  | case3 filled r c rest h ih =>
    rw [floodLoop]
    simp only [dif_neg h]
    exact ih

theorem floodFillWithDirections_gridWF {g : Grid} {R C : ℕ} (row col : ℕ)
    (v : CellValue) (dirs : List (ℤ × ℤ)) (hwf : GridWF g R C) :
    GridWF (floodFillWithDirections g row col v dirs) R C := by
  rw [gridWF_iff_map_length] at hwf ⊢
  unfold floodFillWithDirections
  cases gridGet g row col with
  | none => exact hwf
  | some targetValue =>
    by_cases h : targetValue = v
    · simpa [h]
    · simp only [dif_neg h]
      rw [floodLoop_map_length]
      simpa

theorem createEmptyGrid_gridWF (R C : ℕ) : GridWF (createEmptyGrid R C) R C := by
  constructor
  · simp [createEmptyGrid]
  · intro row hrow
    rw [List.eq_of_mem_replicate hrow]
    simp

theorem normalizeGrid_gridWF (raw : Json) (R C : ℕ) :
    GridWF (normalizeGrid raw R C) R C := by
  unfold normalizeGrid
  cases raw with
  | arr rowsRaw =>
    constructor
    · simp
    · intro row hrow
      obtain ⟨r, _, rfl⟩ := List.mem_map.mp hrow
      simp
  | null => exact createEmptyGrid_gridWF R C
  | bool b => exact createEmptyGrid_gridWF R C
  | num q => exact createEmptyGrid_gridWF R C
  | str s => exact createEmptyGrid_gridWF R C
  | obj fields => exact createEmptyGrid_gridWF R C

theorem resizedGrid_gridWF (old : Grid) (oldRows oldCols R C : ℕ) :
    GridWF (resizedGrid old oldRows oldCols R C) R C := by
  constructor
  · simp [resizedGrid]
  · intro row hrow
    obtain ⟨r, _, rfl⟩ := List.mem_map.mp hrow
    simp

theorem gridSet_gridWF {g : Grid} {R C : ℕ} (r c : ℕ) (v : CellValue)
    (hwf : GridWF g R C) : GridWF (gridSet g r c v) R C := by
  rw [gridWF_iff_map_length] at hwf ⊢
  rw [gridSet_map_length]
  exact hwf

theorem normalizeStrokeEntry_wf {entry : Json} {st : PaintStroke}
    (h : normalizeStrokeEntry entry = some st) :
    st.points ≠ [] ∧ 0 < st.width := by
  unfold normalizeStrokeEntry at h
  split at h
  any_goals exact Option.noConfusion h
  split at h
  any_goals exact Option.noConfusion h
  rename_i pointsRaw hpoints
  by_cases hemp : (pointsRaw.filterMap normalizePaintPoint).isEmpty = true
  · simp only [hemp, if_true] at h
    exact absurd h (by simp)
  · simp only [Bool.not_eq_true] at hemp
    simp only [hemp, Bool.false_eq_true, if_false] at h
    obtain rfl := Option.some.inj h
    refine ⟨?_, ?_⟩
    · dsimp only
      intro hnil
      rw [hnil] at hemp
      simp at hemp
    · dsimp only
      split
      · split
        · assumption
        · norm_num [DEFAULT_STROKE_WIDTH]
      · norm_num [DEFAULT_STROKE_WIDTH]

theorem normalizePaintStrokes_wf (raw : Option Json) :
    StrokesWF (normalizePaintStrokes raw) := by
  intro st hst
  unfold normalizePaintStrokes at hst
  revert hst
  match raw with
  | none => intro hst; simp at hst
  | some (Json.arr entries) =>
    intro hst
    obtain ⟨entry, _, hentry⟩ := List.mem_filterMap.mp hst
    exact normalizeStrokeEntry_wf hentry
  | some Json.null => intro hst; simp at hst
  | some (Json.bool b) => intro hst; simp at hst
  | some (Json.num q) => intro hst; simp at hst
  | some (Json.str s) => intro hst; simp at hst
  | some (Json.obj fields) => intro hst; simp at hst

theorem mem_of_getLast?_eq {α : Type} {l : List α} {a : α}
    (h : l.getLast? = some a) : a ∈ l := by
  obtain ⟨hne, rfl⟩ := List.mem_getLast?_eq_getLast (Option.mem_def.mpr h)
  exact List.getLast_mem hne

theorem ne_nil_of_getLast?_eq {α : Type} {l : List α} {a : α}
    (h : l.getLast? = some a) : l ≠ [] := by
  intro hnil
  subst hnil
  simp at h

theorem le_clamp {v mn mx : ℚ} (h : mn ≤ mx) : mn ≤ clamp v mn mx :=
  le_min (le_max_right v mn) h

theorem clamp_le (v mn mx : ℚ) : clamp v mn mx ≤ mx :=
  min_le_right _ _

theorem clampGridSize_lb (v : ℚ) : MIN_GRID_SIZE ≤ clampGridSize v := by
  unfold clampGridSize MIN_GRID_SIZE MAX_GRID_SIZE
  generalize round v = z
  omega

theorem clampGridSize_ub (v : ℚ) : clampGridSize v ≤ MAX_GRID_SIZE := by
  unfold clampGridSize MIN_GRID_SIZE MAX_GRID_SIZE
  generalize round v = z
  omega

theorem clampGridSize_natCast {n : ℕ} (h1 : MIN_GRID_SIZE ≤ n)
    (h2 : n ≤ MAX_GRID_SIZE) : clampGridSize (n : ℚ) = n := by
  unfold clampGridSize
  rw [round_natCast]
  simp only [MIN_GRID_SIZE, MAX_GRID_SIZE] at h1 h2 ⊢
  omega

@[simp] theorem currentSnapshot_eq (s : GridStore) :
    currentSnapshot s = ⟨s.grid, s.paintStrokes⟩ := by
  simp [currentSnapshot]

theorem mem_pushHistory {s : GridStore} {snap : StateSnapshot}
    (h : snap ∈ pushHistory s) : snap ∈ s.history ∨ snap = currentSnapshot s := by
  unfold pushHistory at h
  split at h
  · have := List.drop_subset 1 _ h
    rcases List.mem_append.mp this with h1 | h1
    · exact Or.inl h1
    · exact Or.inr (by simpa using h1)
  · rcases List.mem_append.mp h with h1 | h1
    · exact Or.inl h1
    · exact Or.inr (by simpa using h1)

theorem pushHistory_length_le {s : GridStore}
    (h : s.history.length ≤ MAX_HISTORY) :
    (pushHistory s).length ≤ MAX_HISTORY := by
  unfold pushHistory
  split
  all_goals
    simp only [List.length_drop, List.length_append, List.length_cons,
      List.length_nil] at *
    omega

theorem snapshotWF_current {s : GridStore} (h : Inv s) :
    SnapshotWF s.rows s.cols (currentSnapshot s) := by
  rw [currentSnapshot_eq]
  exact ⟨h.grid_wf, h.strokes_wf⟩

/-- The state change common to `applyCellAction`'s mutating branches (the
`mode` field is arbitrary: the invariant does not mention it). -/
theorem inv_mutate_grid {s : GridStore} {g : Grid} (m : GridMode) (h : Inv s)
    (hg : GridWF g s.rows s.cols) :
    Inv { s with
          mode := m
          grid := g
          history := pushHistory s
          future := []
          activeStrokeIndex := none } := by
  refine ⟨hg, h.rows_lb, h.rows_ub, h.cols_lb, h.cols_ub, h.zoom_lb, h.zoom_ub,
    h.strokes_wf, ?_, ?_, ?_⟩
  · intro snap hsnap
    rcases mem_pushHistory hsnap with hmem | rfl
    · exact h.hist_wf snap hmem
    · exact snapshotWF_current h
  · intro snap hsnap
    simp at hsnap
  · simp only [List.length_nil, Nat.add_zero]
    exact pushHistory_length_le (le_trans (Nat.le_add_right _ _) h.hist_bound)

theorem min_zoom_le_max_zoom : MIN_ZOOM ≤ MAX_ZOOM := by
  norm_num [MIN_ZOOM, MAX_ZOOM]

theorem inv_setMode (s : GridStore) (m : GridMode) (h : Inv s) :
    Inv (setMode s m) :=
  ⟨h.grid_wf, h.rows_lb, h.rows_ub, h.cols_lb, h.cols_ub, h.zoom_lb, h.zoom_ub,
    h.strokes_wf, h.hist_wf, h.fut_wf, h.hist_bound⟩

theorem inv_setZoom (s : GridStore) (z : ℚ) (h : Inv s) : Inv (setZoom s z) :=
  ⟨h.grid_wf, h.rows_lb, h.rows_ub, h.cols_lb, h.cols_ub,
    le_clamp min_zoom_le_max_zoom, clamp_le z MIN_ZOOM MAX_ZOOM,
    h.strokes_wf, h.hist_wf, h.fut_wf, h.hist_bound⟩

theorem inv_bumpZoom (s : GridStore) (d : ℚ) (h : Inv s) : Inv (bumpZoom s d) :=
  inv_setZoom s (s.zoom + d) h

theorem inv_applyCellAction (s : GridStore) (row col : ℕ) (h : Inv s) :
    Inv (applyCellAction s row col) := by
  unfold applyCellAction
  split
  · exact h
  · cases s.mode with
    | draw =>
      dsimp only
      by_cases hg : gridGet s.grid row col ≠ some (some s.selectedColor)
      · rw [if_pos hg]
        exact inv_mutate_grid
          (g := gridSet (cloneGrid s.grid) row col (some s.selectedColor))
          GridMode.draw h
          (by simpa using gridSet_gridWF row col (some s.selectedColor) h.grid_wf)
      · rw [if_neg hg]
        exact h
    | erase =>
      dsimp only
      by_cases hg : gridGet s.grid row col ≠ some none
      · rw [if_pos hg]
        exact inv_mutate_grid (g := gridSet (cloneGrid s.grid) row col none)
          GridMode.erase h
          (by simpa using gridSet_gridWF row col none h.grid_wf)
      · rw [if_neg hg]
        exact h
    | fill =>
      dsimp only
      by_cases hg : gridGet s.grid row col ≠ some (some s.selectedColor)
      · rw [if_pos hg]
        exact inv_mutate_grid (g := floodFill s.grid row col (some s.selectedColor))
          GridMode.fill h
          (by simp only [floodFill]
              exact floodFillWithDirections_gridWF row col _ _ h.grid_wf)
      · rw [if_neg hg]
        exact h
    | fillForward =>
      dsimp only
      by_cases hg : gridGet s.grid row col ≠ some (some s.selectedColor)
      · rw [if_pos hg]
        exact inv_mutate_grid (g := forwardFill s.grid row col (some s.selectedColor))
          GridMode.fillForward h
          (by simp only [forwardFill]
              exact floodFillWithDirections_gridWF row col _ _ h.grid_wf)
      · rw [if_neg hg]
        exact h
    | paint => exact h
    | pan => exact h

theorem inv_startPaintStroke (s : GridStore) (p : PaintPoint) (h : Inv s) :
    Inv (startPaintStroke s p) := by
  unfold startPaintStroke
  split
  · exact h
  · refine ⟨h.grid_wf, h.rows_lb, h.rows_ub, h.cols_lb, h.cols_ub, h.zoom_lb,
      h.zoom_ub, ?_, ?_, ?_, ?_⟩
    · intro st hst
      rcases List.mem_append.mp hst with h1 | h1
      · exact h.strokes_wf st h1
      · rw [List.mem_singleton.mp h1]
        refine ⟨by simp, by norm_num [DEFAULT_STROKE_WIDTH]⟩
    · intro snap hsnap
      rcases mem_pushHistory hsnap with hmem | rfl
      · exact h.hist_wf snap hmem
      · exact snapshotWF_current h
    · intro snap hsnap
      simp at hsnap
    · simp only [List.length_nil, Nat.add_zero]
      exact pushHistory_length_le (le_trans (Nat.le_add_right _ _) h.hist_bound)

theorem inv_update_strokes {s : GridStore} {index : ℕ} {target : PaintStroke}
    (h : Inv s) (htarget : s.paintStrokes[index]? = some target) (p : PaintPoint) :
    Inv { s with
          paintStrokes := s.paintStrokes.set index
            (PaintStroke.mk target.color target.width (target.points ++ [p])) } := by
  refine ⟨h.grid_wf, h.rows_lb, h.rows_ub, h.cols_lb, h.cols_ub, h.zoom_lb,
    h.zoom_ub, ?_, h.hist_wf, h.fut_wf, h.hist_bound⟩
  intro st hst
  rcases List.mem_or_eq_of_mem_set hst with h1 | rfl
  · exact h.strokes_wf st h1
  · have htw := h.strokes_wf target (List.getElem?_mem htarget)
    exact ⟨by simp, htw.2⟩

theorem inv_updatePaintStroke (s : GridStore) (p : PaintPoint) (h : Inv s) :
    Inv (updatePaintStroke s p) := by
  unfold updatePaintStroke
  split
  · exact h
  · split
    · exact ⟨h.grid_wf, h.rows_lb, h.rows_ub, h.cols_lb, h.cols_ub, h.zoom_lb,
        h.zoom_ub, h.strokes_wf, h.hist_wf, h.fut_wf, h.hist_bound⟩
    · rename_i target htarget
      split
      · split
        · exact h
        · exact inv_update_strokes h htarget p
      · exact inv_update_strokes h htarget p

theorem inv_endPaintStroke (s : GridStore) (h : Inv s) :
    Inv (endPaintStroke s) := by
  unfold endPaintStroke
  split
  · exact h
  · exact ⟨h.grid_wf, h.rows_lb, h.rows_ub, h.cols_lb, h.cols_ub, h.zoom_lb,
      h.zoom_ub, h.strokes_wf, h.hist_wf, h.fut_wf, h.hist_bound⟩

theorem inv_undo (s : GridStore) (h : Inv s) : Inv (undo s) := by
  unfold undo
  split
  · exact h
  · next previous hprev =>
    have hmem := mem_of_getLast?_eq hprev
    have hsnap := h.hist_wf previous hmem
    have hpos : 0 < s.history.length :=
      List.length_pos.mpr (ne_nil_of_getLast?_eq hprev)
    refine ⟨by simpa using hsnap.1, h.rows_lb, h.rows_ub, h.cols_lb, h.cols_ub,
      h.zoom_lb, h.zoom_ub, by simpa using hsnap.2, ?_, ?_, ?_⟩
    · intro snap hs
      exact h.hist_wf snap ((List.dropLast_prefix s.history).subset hs)
    · intro snap hs
      rcases List.mem_cons.mp hs with rfl | h1
      · exact snapshotWF_current h
      · exact h.fut_wf snap h1
    · have := h.hist_bound
      simp only [List.length_dropLast, List.length_cons]
      omega

theorem inv_redo (s : GridStore) (h : Inv s) : Inv (redo s) := by
  unfold redo
  split
  · exact h
  · next x nx rest heq =>
    have hmem : nx ∈ s.future := by
      rw [heq]
      exact List.mem_cons_self nx rest
    have hsnap := h.fut_wf nx hmem
    have hflen : s.future.length = rest.length + 1 := by
      rw [heq]
      simp
    refine ⟨by simpa using hsnap.1, h.rows_lb, h.rows_ub, h.cols_lb, h.cols_ub,
      h.zoom_lb, h.zoom_ub, by simpa using hsnap.2, ?_, ?_, ?_⟩
    · intro snap hs
      rcases List.mem_append.mp hs with h1 | h1
      · exact h.hist_wf snap h1
      · rw [List.mem_singleton.mp h1]
        exact snapshotWF_current h
    · intro snap hs
      refine h.fut_wf snap ?_
      rw [heq]
      exact List.mem_cons_of_mem nx hs
    · have hb := h.hist_bound
      simp only [List.length_append, List.length_cons, List.length_nil]
      omega

theorem inv_clear (s : GridStore) (h : Inv s) : Inv (clear s) := by
  refine ⟨createEmptyGrid_gridWF s.rows s.cols, h.rows_lb, h.rows_ub, h.cols_lb,
    h.cols_ub, h.zoom_lb, h.zoom_ub, ?_, ?_, ?_, ?_⟩
  · intro st hst
    simp [clear] at hst
  · intro snap hs
    simp [clear] at hs
  · intro snap hs
    simp [clear] at hs
  · simp [clear, MAX_HISTORY]

theorem inv_setSelectedColor (s : GridStore) (c : String) (h : Inv s) :
    Inv (setSelectedColor s c) := by
  unfold setSelectedColor
  split
  · exact h
  · exact ⟨h.grid_wf, h.rows_lb, h.rows_ub, h.cols_lb, h.cols_ub, h.zoom_lb,
      h.zoom_ub, h.strokes_wf, h.hist_wf, h.fut_wf, h.hist_bound⟩

theorem inv_setGridSize (s : GridStore) (r c : ℚ) (h : Inv s) :
    Inv (setGridSize s r c) := by
  unfold setGridSize
  split
  · exact h
  · refine ⟨resizedGrid_gridWF s.grid s.rows s.cols _ _, clampGridSize_lb r,
      clampGridSize_ub r, clampGridSize_lb c, clampGridSize_ub c,
      h.zoom_lb, h.zoom_ub, ?_, ?_, ?_, ?_⟩
    · intro st hst
      simp at hst
    · intro snap hs
      simp at hs
    · intro snap hs
      simp at hs
    · simp [MAX_HISTORY]

theorem inv_setPan (s : GridStore) (x y : ℚ) (p : Bool) (h : Inv s) :
    Inv (setPan s x y p) := by
  unfold setPan
  split
  · exact h
  · exact ⟨h.grid_wf, h.rows_lb, h.rows_ub, h.cols_lb, h.cols_ub, h.zoom_lb,
      h.zoom_ub, h.strokes_wf, h.hist_wf, h.fut_wf, h.hist_bound⟩

theorem inv_deserialize (s : GridStore) (payload : Option Json) (h : Inv s) :
    Inv (deserialize s payload).1 := by
  match payload with
  | none => exact h
  | some Json.null => exact h
  | some (Json.bool b) => exact h
  | some (Json.num q) => exact h
  | some (Json.str str) => exact h
  | some (Json.arr elements) => exact h
  | some (Json.obj fields) =>
    rcases hmatch : deserialize s (some (Json.obj fields)) with ⟨s', warned⟩
    unfold deserialize at hmatch
    split at hmatch
    · injection hmatch with h1 h2
      subst h1
      exact h
    · split at hmatch
      · injection hmatch with h1 h2
        subst h1
        exact h
      · rename_i parsed1 heq parsed2 hnull
        obtain rfl := Option.some.inj heq
        split at hmatch
        all_goals injection hmatch with h1 h2
        all_goals subst h1
        all_goals subst h2
        all_goals try exact h
        rename_i rowsNum colsNum gridRaw hr hc hg
        dsimp only
        refine ⟨normalizeGrid_gridWF (Json.arr gridRaw) (clampGridSize rowsNum)
            (clampGridSize colsNum),
          clampGridSize_lb rowsNum, clampGridSize_ub rowsNum,
          clampGridSize_lb colsNum, clampGridSize_ub colsNum, ?_, ?_,
          normalizePaintStrokes_wf (getField (Json.obj fields) "paintStrokes"),
          ?_, ?_, ?_⟩
        · show MIN_ZOOM ≤ _
          split
          · exact le_clamp min_zoom_le_max_zoom
          · norm_num [MIN_ZOOM]
        · show _ ≤ MAX_ZOOM
          split
          · exact clamp_le _ MIN_ZOOM MAX_ZOOM
          · norm_num [MAX_ZOOM]
        · intro snap hs
          simp at hs
        · intro snap hs
          simp at hs
        · simp [MAX_HISTORY]

theorem inv_loadFromStorage (s : GridStore) (raw : Option Json) (h : Inv s) :
    Inv (loadFromStorage s raw) := by
  unfold loadFromStorage
  split
  · exact h
  · next stored hstored =>
    refine ⟨normalizeGrid_gridWF (gridToJson stored.grid) (clampGridSize stored.rows)
        (clampGridSize stored.cols),
      clampGridSize_lb stored.rows, clampGridSize_ub stored.rows,
      clampGridSize_lb stored.cols, clampGridSize_ub stored.cols,
      le_clamp min_zoom_le_max_zoom, clamp_le stored.zoom MIN_ZOOM MAX_ZOOM,
      normalizePaintStrokes_wf (some (strokesToJson stored.paintStrokes)), ?_, ?_, ?_⟩
    · intro snap hs
      simp at hs
    · intro snap hs
      simp at hs
    · simp [MAX_HISTORY]

theorem inv_initialState : Inv initialState := by
  refine ⟨createEmptyGrid_gridWF DEFAULT_ROWS DEFAULT_COLS, ?_, ?_, ?_, ?_, ?_, ?_,
    ?_, ?_, ?_, ?_⟩
  · norm_num [initialState, MIN_GRID_SIZE, DEFAULT_ROWS]
  · norm_num [initialState, MAX_GRID_SIZE, DEFAULT_ROWS]
  · norm_num [initialState, MIN_GRID_SIZE, DEFAULT_COLS]
  · norm_num [initialState, MAX_GRID_SIZE, DEFAULT_COLS]
  · norm_num [initialState, MIN_ZOOM]
  · norm_num [initialState, MAX_ZOOM]
  · intro st hst
    simp [initialState] at hst
  · intro snap hs
    simp [initialState] at hs
  · intro snap hs
    simp [initialState] at hs
  · simp [initialState, MAX_HISTORY]

/-- Every reachable state satisfies the invariant. -/
theorem reachable_inv {s : GridStore} (h : Reachable s) : Inv s := by
  induction h with
  | init => exact inv_initialState
  | step _ hstep ih =>
    cases hstep with
    | setMode m => exact inv_setMode _ m ih
    | setZoom z => exact inv_setZoom _ z ih
    | bumpZoom d => exact inv_bumpZoom _ d ih
    | applyCellAction r c => exact inv_applyCellAction _ r c ih
    | startPaintStroke p => exact inv_startPaintStroke _ p ih
    | updatePaintStroke p => exact inv_updatePaintStroke _ p ih
    | endPaintStroke => exact inv_endPaintStroke _ ih
    | undo => exact inv_undo _ ih
    | redo => exact inv_redo _ ih
    | clear => exact inv_clear _ ih
    | setSelectedColor c => exact inv_setSelectedColor _ c ih
    | setGridSize r c => exact inv_setGridSize _ r c ih
    | setPan x y p => exact inv_setPan _ x y p ih
    | deserialize payload => exact inv_deserialize _ payload ih
    | loadFromStorage raw => exact inv_loadFromStorage _ raw ih

/-! ### Cell-level behaviour of `gridSet` and the directional-fill frame -/

theorem gridGet_gridSet_same {g : Grid} {r c : ℕ} {w : CellValue}
    (h : gridGet g r c = some w) (v : CellValue) :
    gridGet (gridSet g r c v) r c = some v := by
  unfold gridGet gridSet at *
  cases hrow : g[r]? with
  | none => rw [hrow] at h; simp at h
  | some row =>
    rw [hrow] at h
    dsimp only at h ⊢
    have hr : r < g.length := (List.getElem?_eq_some.mp hrow).1
    have hc : c < row.length := (List.getElem?_eq_some.mp h).1
    rw [List.getElem?_set_eq hr]
    dsimp only
    exact List.getElem?_set_eq hc

theorem gridGet_gridSet_ne {g : Grid} {r c : ℕ} (v : CellValue) {r' c' : ℕ}
    (h : ¬(r' = r ∧ c' = c)) :
    gridGet (gridSet g r c v) r' c' = gridGet g r' c' := by
  unfold gridGet gridSet
  cases hrow : g[r]? with
  | none => rfl
  | some row =>
    by_cases hr : r' = r
    · subst hr
      have hc : ¬ c' = c := fun hcc => h ⟨rfl, hcc⟩
      have hlen : r' < g.length := (List.getElem?_eq_some.mp hrow).1
      rw [List.getElem?_set_eq (by simpa using hlen), hrow]
      exact List.getElem?_set_ne (fun hcc => hc hcc.symm)
    · rw [List.getElem?_set_ne (fun hrr => hr hrr.symm)]

/-- Right/down reachability through cells holding the origin's value, on the
original grid: the region the directional fill may touch. -/
inductive ReachRD (g : Grid) (t : CellValue) (origin : ℕ × ℕ) : ℕ × ℕ → Prop
  | refl : ReachRD g t origin origin
  | step {p q : ℕ × ℕ} : ReachRD g t origin p → gridGet g p.1 p.2 = some t →
      gridGet g q.1 q.2 = some t →
      (q = (p.1 + 1, p.2) ∨ q = (p.1, p.2 + 1)) → ReachRD g t origin q

theorem reachRD_mono {g : Grid} {t : CellValue} {o p : ℕ × ℕ}
    (h : ReachRD g t o p) : o.1 ≤ p.1 ∧ o.2 ≤ p.2 := by
  induction h with
  | refl => exact ⟨le_refl _, le_refl _⟩
  | step _ _ _ hstep ih =>
    rcases hstep with rfl | rfl
    · exact ⟨by omega, by simpa using ih.2⟩
    · exact ⟨by simpa using ih.1, by omega⟩

/-- Loop invariant of the directional fill: every stack entry is
right/down-reachable from the origin, and the partial fill differs from the
input grid exactly on reachable target cells already set to the new value. -/
theorem floodLoop_forward_invariant (rows cols : ℕ) {g : Grid} {t v : CellValue}
    (hne : t ≠ v) (origin : ℕ × ℕ)
    (stack : List (ℕ × ℕ)) (filled : Grid)
    (hstack : ∀ p ∈ stack, ReachRD g t origin p)
    (hfill : ∀ p : ℕ × ℕ, gridGet filled p.1 p.2 = gridGet g p.1 p.2 ∨
      (gridGet g p.1 p.2 = some t ∧ gridGet filled p.1 p.2 = some v ∧
        ReachRD g t origin p)) :
    ∀ p : ℕ × ℕ,
      gridGet (floodLoop rows cols t v hne [(1, 0), (0, 1)] stack filled) p.1 p.2
          = gridGet g p.1 p.2 ∨
        (gridGet g p.1 p.2 = some t ∧
          gridGet (floodLoop rows cols t v hne [(1, 0), (0, 1)] stack filled) p.1 p.2
            = some v ∧
          ReachRD g t origin p) := by
  induction stack, filled using floodLoop.induct rows cols t v hne [(1, 0), (0, 1)] with
  | case1 filled =>
    rw [floodLoop]
    exact hfill
  | case2 filled r c rest h filled' pushes ih =>
    rw [floodLoop]
    simp only [dif_pos h]
    -- facts about the popped cell
    have hreach_rc : ReachRD g t origin (r, c) :=
      hstack (r, c) (List.mem_cons_self _ _)
    have hg_rc : gridGet g r c = some t := by
      rcases hfill (r, c) with h1 | h1
      · rw [← h1]; exact h
      · exact absurd (h.symm.trans h1.2.1) (by simpa using hne)
    -- the new fill invariant
    have hfill' : ∀ p : ℕ × ℕ, gridGet filled' p.1 p.2 = gridGet g p.1 p.2 ∨
        (gridGet g p.1 p.2 = some t ∧ gridGet filled' p.1 p.2 = some v ∧
          ReachRD g t origin p) := by
      intro p
      by_cases hp : p.1 = r ∧ p.2 = c
      · right
        obtain ⟨h1, h2⟩ := hp
        subst h1
        subst h2
        exact ⟨hg_rc, gridGet_gridSet_same h v, hreach_rc⟩
      · rw [show filled' = gridSet filled r c v from rfl,
          gridGet_gridSet_ne v hp]
        exact hfill p
    -- the new stack invariant
    have hstack' : ∀ p ∈ pushes.reverse ++ rest, ReachRD g t origin p := by
      intro p hp
      rcases List.mem_append.mp hp with hp | hp
      · rw [List.mem_reverse] at hp
        obtain ⟨d, hd, hpush⟩ := List.mem_filterMap.mp hp
        unfold neighborPush at hpush
        split at hpush
        · exact Option.noConfusion hpush
        · split at hpush
          · rename_i hbounds hval
            obtain rfl := Option.some.inj hpush
            -- the pushed cell still holds the target in `filled'`
            have hne_rc : ¬(((r : ℤ) + d.1).toNat = r ∧ ((c : ℤ) + d.2).toNat = c) := by
              rcases List.mem_pair.mp hd with rfl | rfl <;> dsimp only <;> omega
            have hfilled_p : gridGet filled ((r : ℤ) + d.1).toNat ((c : ℤ) + d.2).toNat
                = some t := by
              rw [show filled' = gridSet filled r c v from rfl,
                gridGet_gridSet_ne v hne_rc] at hval
              exact hval
            have hg_p : gridGet g ((r : ℤ) + d.1).toNat ((c : ℤ) + d.2).toNat
                = some t := by
              rcases hfill (((r : ℤ) + d.1).toNat, ((c : ℤ) + d.2).toNat) with h1 | h1
              · rw [← h1]; exact hfilled_p
              · exact absurd (hfilled_p.symm.trans h1.2.1) (by simpa using hne)
            refine ReachRD.step hreach_rc hg_rc hg_p ?_
            rcases List.mem_pair.mp hd with rfl | rfl
            · refine Or.inl ?_
              dsimp only
              simp only [Prod.mk.injEq]
              constructor <;> omega
            · refine Or.inr ?_
              dsimp only
              simp only [Prod.mk.injEq]
              constructor <;> omega
          · exact Option.noConfusion hpush
      · exact hstack p (List.mem_cons_of_mem _ hp)
    exact ih hstack' hfill'
  | case3 filled r c rest h ih =>
    rw [floodLoop]
    simp only [dif_neg h]
    exact ih (fun p hp => hstack p (List.mem_cons_of_mem _ hp)) hfill

/-! ### Undo after push, and the serialize round trip -/

theorem getLast?_pushHistory (s : GridStore) :
    (pushHistory s).getLast? = some (currentSnapshot s) := by
  unfold pushHistory
  split
  · next hlen =>
    rw [List.drop_append_of_le_length (by simp [MAX_HISTORY] at hlen ⊢; omega)]
    exact List.getLast?_concat _
  · exact List.getLast?_concat _

/-- Any state whose history is `pushHistory s` undoes back to `s`'s grid and
strokes. -/
theorem undo_restores {s s' : GridStore} (hh : s'.history = pushHistory s) :
    (undo s').grid = s.grid ∧ (undo s').paintStrokes = s.paintStrokes := by
  unfold undo
  rw [hh, getLast?_pushHistory]
  simp

theorem clamp_eq_self {v mn mx : ℚ} (h1 : mn ≤ v) (h2 : v ≤ mx) :
    clamp v mn mx = v := by
  unfold clamp
  rw [max_eq_left h1]
  exact min_eq_left h2

@[simp] theorem normalizeCellValue_cellToJson (v : CellValue) :
    normalizeCellValue (some (cellToJson v)) = v := by
  cases v <;> rfl

@[simp] theorem normalizePaintPoint_pointToJson (p : PaintPoint) :
    normalizePaintPoint (pointToJson p) = some p := rfl

theorem normalizeGrid_gridToJson {g : Grid} {R C : ℕ} (hwf : GridWF g R C) :
    normalizeGrid (gridToJson g) R C = g := by
  obtain ⟨hlen, hrows⟩ := hwf
  unfold normalizeGrid gridToJson
  refine List.ext_getElem? (fun r => ?_)
  rw [List.getElem?_map]
  rcases Nat.lt_or_ge r R with hr | hr
  · rw [List.getElem?_range hr]
    obtain ⟨row, hrow⟩ : ∃ row, g[r]? = some row :=
      ⟨g.get ⟨r, by omega⟩, List.getElem?_eq_getElem (by omega)⟩
    rw [hrow, Option.map_some']
    congr 1
    simp only [List.getElem?_map, hrow, Option.map_some']
    refine List.ext_getElem? (fun c => ?_)
    rw [List.getElem?_map]
    have hrl : row.length = C := hrows row (List.getElem?_mem hrow)
    rcases Nat.lt_or_ge c C with hc | hc
    · rw [List.getElem?_range hc, Option.map_some']
      obtain ⟨cell, hcell⟩ : ∃ cell, row[c]? = some cell :=
        ⟨row.get ⟨c, by omega⟩, List.getElem?_eq_getElem (by omega)⟩
      rw [hcell]
      simp only [List.getElem?_map, hcell, Option.map_some',
        normalizeCellValue_cellToJson]
    · rw [List.getElem?_eq_none (by simpa using hc),
        List.getElem?_eq_none (l := row) (by omega)]
      rfl
  · rw [List.getElem?_eq_none (l := List.range R) (by simpa using hr),
      List.getElem?_eq_none (by omega)]
    rfl

theorem normalizeStrokeEntry_strokeToJson {st : PaintStroke}
    (hpts : st.points ≠ []) (hw : 0 < st.width) :
    normalizeStrokeEntry (strokeToJson st) = some st := by
  have hfind : (st.points.map pointToJson).filterMap normalizePaintPoint
      = st.points := by
    rw [List.filterMap_map]
    have hcomp : (normalizePaintPoint ∘ pointToJson) = some := by
      funext p
      exact normalizePaintPoint_pointToJson p
    rw [hcomp, List.filterMap_some]
  unfold normalizeStrokeEntry strokeToJson
  simp [getField, findField, hfind, hw, hpts]

theorem normalizePaintStrokes_roundtrip {strokes : List PaintStroke}
    (hwf : StrokesWF strokes) :
    normalizePaintStrokes (some (strokesToJson strokes)) = strokes := by
  show (strokes.map strokeToJson).filterMap normalizeStrokeEntry = strokes
  induction strokes with
  | nil => rfl
  | cons st rest ih =>
    have hst := hwf st (List.mem_cons_self _ _)
    simp only [List.map_cons, List.filterMap_cons,
      normalizeStrokeEntry_strokeToJson hst.1 hst.2]
    exact congrArg (st :: ·) (ih (fun x hx => hwf x (List.mem_cons_of_mem _ hx)))

/-- On an invariant-satisfying state, decoding the state's own serialization
reproduces every persisted field exactly (history, future and the active
stroke marker are reset, as `deserialize` always does). -/
theorem deserialize_serialize {s : GridStore} (hInv : Inv s) :
    (deserialize s (some (serialize s))).1
      = { s with history := [], future := [], activeStrokeIndex := none } := by
  show GridStore.mk (clampGridSize (s.rows : ℚ)) (clampGridSize (s.cols : ℚ))
      (normalizeGrid (gridToJson s.grid) (clampGridSize (s.rows : ℚ))
        (clampGridSize (s.cols : ℚ)))
      (clamp s.zoom MIN_ZOOM MAX_ZOOM) s.selectedColor s.panX s.panY s.mode
      (normalizePaintStrokes (some (strokesToJson s.paintStrokes))) [] [] none
    = { s with history := [], future := [], activeStrokeIndex := none }
  rw [clampGridSize_natCast hInv.rows_lb hInv.rows_ub,
    clampGridSize_natCast hInv.cols_lb hInv.cols_ub,
    normalizeGrid_gridToJson hInv.grid_wf,
    clamp_eq_self hInv.zoom_lb hInv.zoom_ub,
    normalizePaintStrokes_roundtrip hInv.strokes_wf]

/-- The branch guards under which `applyCellAction` actually mutates (the
in-bounds check and the per-mode no-op conditions, verbatim from the
source). -/
def cellActionMutates (s : GridStore) (row col : ℕ) : Prop :=
  row < s.rows ∧ col < s.cols ∧
  match s.mode with
  | GridMode.draw => gridGet s.grid row col ≠ some (some s.selectedColor)
  | GridMode.erase => gridGet s.grid row col ≠ some none
  | GridMode.fill => gridGet s.grid row col ≠ some (some s.selectedColor)
  | GridMode.fillForward => gridGet s.grid row col ≠ some (some s.selectedColor)
  | _ => False

theorem gridGet_resizedGrid (old : Grid) (R0 C0 R C i j : ℕ)
    (hi : i < R) (hj : j < C) :
    gridGet (resizedGrid old R0 C0 R C) i j
      = some (if i < min R R0 ∧ j < min C C0 then (gridGet old i j).getD none
          else none) := by
  unfold gridGet resizedGrid
  rw [List.getElem?_map, List.getElem?_range hi, Option.map_some']
  dsimp only
  rw [List.getElem?_map, List.getElem?_range hj, Option.map_some']
  rfl

theorem gridGet_eq_some_of_wf {g : Grid} {R C : ℕ} (hwf : GridWF g R C)
    {i j : ℕ} (hi : i < R) (hj : j < C) :
    ∃ w, gridGet g i j = some w := by
  obtain ⟨hlen, hrows⟩ := hwf
  have hig : i < g.length := by omega
  have hjr : j < (g.get ⟨i, hig⟩).length := by
    rw [hrows (g.get ⟨i, hig⟩) (List.get_mem g i hig)]
    omega
  refine ⟨(g.get ⟨i, hig⟩).get ⟨j, hjr⟩, ?_⟩
  unfold gridGet
  rw [List.getElem?_eq_getElem hig]
  exact List.getElem?_eq_getElem hjr

/-! ### The claims -/

instance cellActionMutatesDecidable (s : GridStore) (row col : ℕ) :
    Decidable (cellActionMutates s row col) := by
  unfold cellActionMutates
  cases s.mode <;> infer_instance

/-- C1: after any mutating `applyCellAction` (one whose branch guards hold,
so a snapshot is pushed) or any successful `startPaintStroke`, an immediate
`undo()` restores the grid and the paint-stroke list to exactly their values
before the operation; `undo()` on an empty history stack is a no-op. -/
theorem c1_undo_restores_prior_state (s : GridStore) (row col : ℕ)
    (point : PaintPoint) :
    (cellActionMutates s row col →
      (undo (applyCellAction s row col)).grid = s.grid ∧
      (undo (applyCellAction s row col)).paintStrokes = s.paintStrokes) ∧
    (s.activeStrokeIndex = none →
      (undo (startPaintStroke s point)).grid = s.grid ∧
      (undo (startPaintStroke s point)).paintStrokes = s.paintStrokes) ∧
    (s.history = [] → undo s = s) := by
  refine ⟨?_, ?_, ?_⟩
  · intro hmut
    obtain ⟨hr, hc, hguard⟩ := hmut
    apply undo_restores
    unfold applyCellAction
    rw [if_neg (by omega)]
    revert hguard
    cases s.mode with
    | draw =>
      intro hguard
      dsimp only
      rw [if_pos hguard]
    | erase =>
      intro hguard
      dsimp only
      rw [if_pos hguard]
    | fill =>
      intro hguard
      dsimp only
      rw [if_pos hguard]
    | fillForward =>
      intro hguard
      dsimp only
      rw [if_pos hguard]
    | paint => exact fun hguard => hguard.elim
    | pan => exact fun hguard => hguard.elim
  · intro hnone
    apply undo_restores
    unfold startPaintStroke
    rw [hnone]
  · intro hnil
    unfold undo
    rw [hnil]
    rfl

theorem c1_witness_undo_after_draw :
    cellActionMutates initialState 0 0 ∧
    (undo (applyCellAction initialState 0 0)).grid = initialState.grid ∧
    (undo (applyCellAction initialState 0 0)).paintStrokes
      = initialState.paintStrokes :=
  ⟨by decide,
    (c1_undo_restores_prior_state initialState 0 0 ⟨0, 0⟩).1 (by decide)⟩

/-- C2: `redo()` immediately after `undo()` (non-empty history, nothing in
between) restores the grid and paint-stroke list current just before the
undo; `redo()` on an empty future stack is a no-op. -/
theorem c2_redo_round_trip (s : GridStore) :
    (s.history ≠ [] →
      (redo (undo s)).grid = s.grid ∧
      (redo (undo s)).paintStrokes = s.paintStrokes) ∧
    (s.future = [] → redo s = s) := by
  constructor
  · intro hne
    obtain ⟨prev, hprev⟩ : ∃ p, s.history.getLast? = some p :=
      ⟨_, List.getLast?_eq_getLast_of_ne_nil hne⟩
    unfold undo
    rw [hprev]
    unfold redo
    constructor <;> simp
  · intro hfut
    unfold redo
    rw [hfut]

theorem c2_witness_redo_after_undo :
    (redo (undo (applyCellAction initialState 0 0))).grid
        = (applyCellAction initialState 0 0).grid ∧
    (redo (undo (applyCellAction initialState 0 0))).paintStrokes
        = (applyCellAction initialState 0 0).paintStrokes :=
  (c2_redo_round_trip (applyCellAction initialState 0 0)).1 (by decide)

/-- C10: `undo()` and `redo()`, successful or not, change none of `rows`,
`cols`, `zoom`, `panX`, `panY`, `selectedColor` and `mode`: snapshots hold
only the grid and the paint strokes. -/
theorem c10_undo_redo_frame (s : GridStore) :
    ((undo s).rows = s.rows ∧ (undo s).cols = s.cols ∧ (undo s).zoom = s.zoom ∧
      (undo s).panX = s.panX ∧ (undo s).panY = s.panY ∧
      (undo s).selectedColor = s.selectedColor ∧ (undo s).mode = s.mode) ∧
    ((redo s).rows = s.rows ∧ (redo s).cols = s.cols ∧ (redo s).zoom = s.zoom ∧
      (redo s).panX = s.panX ∧ (redo s).panY = s.panY ∧
      (redo s).selectedColor = s.selectedColor ∧ (redo s).mode = s.mode) := by
  constructor
  · unfold undo
    split <;> exact ⟨rfl, rfl, rfl, rfl, rfl, rfl, rfl⟩
  · unfold redo
    split <;> exact ⟨rfl, rfl, rfl, rfl, rfl, rfl, rfl⟩

/-- C7: flood fill whose origin cell already holds the replacement value
returns the input grid itself, whatever the connectivity set (and the source
allocates nothing on this path). -/
theorem c7_fill_idempotent (g : Grid) (row col : ℕ) (v : CellValue)
    (dirs : List (ℤ × ℤ)) (h : gridGet g row col = some v) :
    floodFillWithDirections g row col v dirs = g := by
  unfold floodFillWithDirections
  rw [h]
  simp

theorem c7_witness :
    floodFillWithDirections [[some "a", none], [none, none]] 0 0 (some "a")
        [(-1, 0), (1, 0), (0, -1), (0, 1)]
      = [[some "a", none], [none, none]] :=
  c7_fill_idempotent [[some "a", none], [none, none]] 0 0 (some "a")
    [(-1, 0), (1, 0), (0, -1), (0, 1)] (by decide)

/-- C5: on every reachable state the undo stack holds at most `MAX_HISTORY`
(100) snapshots; `redo()`, which appends the pre-redo state to the undo
stack without truncating, also cannot push it past 100 (the undo and redo
stacks together never hold more than 100 snapshots); and a push onto a full
stack discards the oldest (front) entry. -/
theorem c5_history_bounded {s : GridStore} (h : Reachable s) :
    s.history.length ≤ MAX_HISTORY ∧
    (redo s).history.length ≤ MAX_HISTORY ∧
    (s.history.length = MAX_HISTORY →
      pushHistory s = s.history.drop 1 ++ [currentSnapshot s]) := by
  have hb := (reachable_inv h).hist_bound
  refine ⟨by omega, ?_, ?_⟩
  · unfold redo
    split
    · omega
    · next x nx rest heq =>
      have hflen : s.future.length = rest.length + 1 := by
        rw [heq]
        simp
      simp only [List.length_append, List.length_cons, List.length_nil]
      omega
  · intro hlen
    unfold pushHistory
    rw [if_pos (by simp only [List.length_append, List.length_cons,
        List.length_nil]; omega)]
    rw [List.drop_append_of_le_length (by simp [MAX_HISTORY] at hlen; omega)]

theorem c5_witness : initialState.history.length ≤ MAX_HISTORY :=
  (c5_history_bounded Reachable.init).1

/-- C3: for every reachable state, `serialize()` → `deserialize()` of the
produced document → `serialize()` again is byte-identical to the first
output (`JSON.parse` of `stringify`'s output is the identity on document
trees, so the decoded payload is the serialized document itself). -/
theorem c3_serialize_round_trip {s : GridStore} (h : Reachable s) :
    serializeString ((deserialize s (some (serialize s))).1) = serializeString s := by
  unfold serializeString
  rw [deserialize_serialize (reachable_inv h)]
  rfl

theorem c3_witness :
    serializeString ((deserialize initialState (some (serialize initialState))).1)
      = serializeString initialState :=
  c3_serialize_round_trip Reachable.init

/-- C6: the directional (right/down) fill never alters a cell above or to
the left of the origin, and any cell it does alter is reachable from the
origin by right/down steps through cells equal to the origin's value. -/
theorem c6_forward_fill_frame (g : Grid) (r c : ℕ) (v : CellValue)
    (r' c' : ℕ) :
    (r' < r ∨ c' < c → gridGet (forwardFill g r c v) r' c' = gridGet g r' c') ∧
    (gridGet (forwardFill g r c v) r' c' ≠ gridGet g r' c' →
      ∃ t, gridGet g r c = some t ∧ ReachRD g t (r, c) (r', c')) := by
  have main : ∀ p : ℕ × ℕ,
      gridGet (forwardFill g r c v) p.1 p.2 = gridGet g p.1 p.2 ∨
        (∃ t, gridGet g r c = some t ∧ ReachRD g t (r, c) p) := by
    intro p
    unfold forwardFill floodFillWithDirections
    cases hget : gridGet g r c with
    | none => exact Or.inl rfl
    | some t =>
      dsimp only
      by_cases hne : t = v
      · rw [dif_pos hne]
        exact Or.inl rfl
      · rw [dif_neg hne]
        rcases floodLoop_forward_invariant (g := g) g.length
            ((g.head?.map List.length).getD 0)
            hne (r, c) [(r, c)] (cloneGrid g)
            (fun q hq => by rw [List.mem_singleton.mp hq]; exact ReachRD.refl)
            (fun q => Or.inl (by rw [cloneGrid_eq])) p with h1 | h1
        · exact Or.inl h1
        · exact Or.inr ⟨t, rfl, h1.2.2⟩
  constructor
  · intro hlt
    rcases main (r', c') with h1 | h1
    · exact h1
    · obtain ⟨t, _, hreach⟩ := h1
      have hmono := reachRD_mono hreach
      dsimp only at hmono
      exfalso
      omega
  · intro hchanged
    rcases main (r', c') with h1 | h1
    · exact absurd h1 hchanged
    · exact h1

theorem c6_witness :
    gridGet (forwardFill [[none, none], [none, none]] 1 1 (some "x")) 0 1
      = gridGet [[none, none], [none, none]] 0 1 :=
  (c6_forward_fill_frame [[none, none], [none, none]] 1 1 (some "x") 0 1).1
    (Or.inl (by decide))

/-- C8: `setGridSize` clamps both requested dimensions to `[8, 128]`; when
the clamped size equals the current one the call is a no-op, and otherwise
the overlapping top-left region is preserved, every other cell is empty, the
paint strokes are dropped, the pan is reset to the origin and both history
stacks are cleared. -/
theorem c8_resize_semantics (s : GridStore) (rq cq : ℚ)
    (hwf : GridWF s.grid s.rows s.cols) :
    (MIN_GRID_SIZE ≤ clampGridSize rq ∧ clampGridSize rq ≤ MAX_GRID_SIZE ∧
      MIN_GRID_SIZE ≤ clampGridSize cq ∧ clampGridSize cq ≤ MAX_GRID_SIZE) ∧
    (clampGridSize rq = s.rows ∧ clampGridSize cq = s.cols →
      setGridSize s rq cq = s) ∧
    (¬(clampGridSize rq = s.rows ∧ clampGridSize cq = s.cols) →
      (setGridSize s rq cq).rows = clampGridSize rq ∧
      (setGridSize s rq cq).cols = clampGridSize cq ∧
      (∀ i j, i < min s.rows (clampGridSize rq) →
        j < min s.cols (clampGridSize cq) →
        gridGet (setGridSize s rq cq).grid i j = gridGet s.grid i j) ∧
      (∀ i j, i < clampGridSize rq → j < clampGridSize cq →
        ¬(i < min s.rows (clampGridSize rq) ∧ j < min s.cols (clampGridSize cq)) →
        gridGet (setGridSize s rq cq).grid i j = some none) ∧
      (setGridSize s rq cq).paintStrokes = [] ∧
      (setGridSize s rq cq).panX = 0 ∧ (setGridSize s rq cq).panY = 0 ∧
      (setGridSize s rq cq).history = [] ∧ (setGridSize s rq cq).future = []) := by
  refine ⟨⟨clampGridSize_lb rq, clampGridSize_ub rq, clampGridSize_lb cq,
    clampGridSize_ub cq⟩, ?_, ?_⟩
  · intro heq
    unfold setGridSize
    rw [if_pos heq]
  · intro hne
    unfold setGridSize
    rw [if_neg hne]
    refine ⟨rfl, rfl, ?_, ?_, rfl, rfl, rfl, rfl, rfl⟩
    · intro i j hi hj
      rw [gridGet_resizedGrid s.grid s.rows s.cols (clampGridSize rq)
          (clampGridSize cq) i j (by omega) (by omega)]
      rw [if_pos ⟨by omega, by omega⟩]
      obtain ⟨w, hw⟩ := gridGet_eq_some_of_wf hwf
        (i := i) (j := j) (by omega) (by omega)
      rw [hw]
      rfl
    · intro i j hi hj hout
      rw [gridGet_resizedGrid s.grid s.rows s.cols (clampGridSize rq)
          (clampGridSize cq) i j hi hj]
      rw [if_neg (by omega)]

/-- A small dense 8×8 state used to instantiate resize and mode claims. -/
def smallState : GridStore :=
  { rows := 8
    cols := 8
    grid := createEmptyGrid 8 8
    zoom := 1
    selectedColor := DEFAULT_COLOR
    panX := 0
    panY := 0
    mode := GridMode.draw
    paintStrokes := []
    history := []
    future := []
    activeStrokeIndex := none }

theorem c8_witness :
    (setGridSize smallState 10 8).rows = clampGridSize 10 ∧
    (setGridSize smallState 10 8).paintStrokes = [] := by
  have h10 : clampGridSize (10 : ℚ) = 10 := by
    have hcast : ((10 : ℕ) : ℚ) = (10 : ℚ) := by norm_num
    rw [← hcast]
    exact clampGridSize_natCast (by norm_num [MIN_GRID_SIZE])
      (by norm_num [MAX_GRID_SIZE])
  have h := (c8_resize_semantics smallState 10 8 (createEmptyGrid_gridWF 8 8)).2.2
    (fun hcontra => absurd (h10 ▸ hcontra.1) (by decide))
  exact ⟨h.1, h.2.2.2.2.1⟩

/-- A paint-mode state with an active stroke (stroke 0 being extended). -/
def paintingState : GridStore :=
  { rows := 8
    cols := 8
    grid := createEmptyGrid 8 8
    zoom := 1
    selectedColor := DEFAULT_COLOR
    panX := 0
    panY := 0
    mode := GridMode.paint
    paintStrokes := [PaintStroke.mk DEFAULT_COLOR DEFAULT_STROKE_WIDTH
      [PaintPoint.mk 0 0]]
    history := []
    future := []
    activeStrokeIndex := some 0 }

/-- C4 counterexample: in a paint-mode state with an active stroke,
`setMode('draw')` leaves the stroke active (`activeStrokeIndex` is still
`some 0`), while finalizing (`endPaintStroke`) would clear it — so `setMode`
does not finalize the active paint stroke. -/
theorem c4_counterexample :
    paintingState.mode = GridMode.paint ∧
    paintingState.activeStrokeIndex = some 0 ∧
    (setMode paintingState GridMode.draw).mode = GridMode.draw ∧
    (setMode paintingState GridMode.draw).activeStrokeIndex = some 0 ∧
    (endPaintStroke paintingState).activeStrokeIndex = none :=
  ⟨rfl, rfl, rfl, rfl, rfl⟩

/-- C4 (amended): `setMode` is a pure reassignment of the `mode` field: it
pushes nothing to history and leaves everything else — including any active
paint stroke — untouched; the finalization on leaving `paint` happens in the
canvas component, not in the store. -/
theorem c4_setMode_pure (s : GridStore) (m : GridMode) :
    setMode s m = { s with mode := m } :=
  rfl

/-- Shape check of `deserialize`: `rows` and `cols` are numbers and `grid`
is an array. -/
def shapeValid (j : Json) : Bool :=
  match getField j "rows", getField j "cols", getField j "grid" with
  | some (Json.num _), some (Json.num _), some (Json.arr _) => true
  | _, _, _ => false

/-- A payload whose `rows` is a string: parseable JSON, invalid shape. -/
def stringRowsPayload : Json :=
  Json.obj [("rows", Json.str "10"), ("cols", Json.num 10),
    ("grid", Json.arr [])]

/-- C9 counterexample: a payload with `rows` given as a string is rejected
and the state is unchanged, but no warning is surfaced (`console.warn` runs
only in the `catch` branch, which a shape-invalid parse never reaches). -/
theorem c9_counterexample :
    (deserialize initialState (some stringRowsPayload)).1 = initialState ∧
    (deserialize initialState (some stringRowsPayload)).2 = false :=
  ⟨rfl, rfl⟩

/-- C9 (amended): `deserialize` leaves the entire state unchanged on every
unparsable or shape-invalid payload; the non-fatal warning is surfaced only
when something throws — an unparsable payload, or a parsed `null` whose
property read throws — while a parse that succeeds but fails the
rows/cols/grid shape check is ignored silently. -/
theorem c9_deserialize_atomic (s : GridStore) (j : Json)
    (hbad : shapeValid j = false) :
    deserialize s none = (s, true) ∧
    deserialize s (some Json.null) = (s, true) ∧
    (j ≠ Json.null → deserialize s (some j) = (s, false)) := by
  refine ⟨rfl, rfl, ?_⟩
  intro hne
  cases j with
  | null => exact absurd rfl hne
  | bool b => rfl
  | num q => rfl
  | str str => rfl
  | arr elements => rfl
  | obj fields =>
    unfold deserialize
    dsimp only
    split
    · rename_i hr hc hg
      rw [shapeValid, hr, hc, hg] at hbad
      exact Bool.noConfusion hbad
    · rfl

theorem c9_witness :
    deserialize initialState (some stringRowsPayload) = (initialState, false) :=
  (c9_deserialize_atomic initialState stringRowsPayload rfl).2.2
    (fun h => Json.noConfusion h)

end GridEditor
